/-
  Verification of the checkinBot standup-flow orchestrator.

  Shallow embedding of the TypeScript sources:
    - src/models/types.ts            (data shapes)
    - src/services/standup-flow.service.ts  (the orchestrator)
    - src/services/firebase.service.ts      (record-store queries)
    - src/bot.ts                     (dispatcher-level extraction/validation)

  External effects (Firestore writes, Slack views.open / views.update /
  chat.postMessage) are modelled by an explicit environment `Env` recording
  which calls succeed; the in-memory `Map<string, StandupFlowState>` is an
  association list with JS-Map semantics (unique keys, insertion order).
-/
import Mathlib

namespace CheckinBot

/-! ## JS primitives -/

/-- JS `a || b` on strings: `""` is falsy. -/
def jsOrString (a b : String) : String := if a = "" then b else a

/-- JS `v || d` where `v : string | undefined` (undefined and `""` falsy). -/
def jsOrOpt (v : Option String) (d : String) : String :=
  match v with
  | none => d
  | some s => jsOrString s d

/-- JS whitespace skipped by `parseInt`. -/
def jsWhitespace (c : Char) : Bool := c = ' ' || c = '\t' || c = '\n' || c = '\r'

/-- JS `parseInt` (base 10): skip leading whitespace, optional sign,
longest digit prefix; `none` models `NaN` when no digit is found. -/
def jsParseInt (s : String) : Option Int :=
  let cs := s.toList.dropWhile jsWhitespace
  let signRest : Int × List Char :=
    match cs with
    | '-' :: r => (-1, r)
    | '+' :: r => (1, r)
    | r => (1, r)
  let ds := signRest.2.takeWhile Char.isDigit
  if ds.isEmpty then none
  else some (signRest.1 * ((ds.foldl (fun a c => a * 10 + (c.toNat - '0'.toNat)) 0 : Nat) : Int))

/-! ## Data model (src/models/types.ts) -/

/-- `TaskEntry`.  `confidenceScore`/`difficultyLevel` hold the result of
`parseInt` (a JS number, possibly `NaN`, modelled as `Option Int`);
`estimatedTime` may be `undefined` at runtime (cast through `as any`). -/
structure TaskEntry where
  project : String
  ticketNumber : String
  taskTitle : String
  estimatedTime : Option String
  confidenceScore : Option Int
  difficultyLevel : Option Int
deriving Repr, DecidableEq

/-- `TaskEntryFormData` as it reaches `handleTaskSubmit` from bot.ts. -/
structure TaskEntryFormData where
  project : String
  ticketNumber : String
  taskTitle : String
  estimatedTime : Option String
  confidenceScore : String
  difficultyLevel : String
deriving Repr, DecidableEq

/-- The raw optional-chained values read off `view.state.values` in bot.ts
(`none` models `undefined` at any point of the chain). -/
structure RawTaskForm where
  project : Option String
  ticketNumber : Option String
  taskTitle : Option String
  estimatedTime : Option String
  confidenceScore : Option String
  difficultyLevel : Option String
deriving Repr, DecidableEq

/-- The `step` field of `StandupFlowState`. -/
inductive Step
  | feeling
  | yesterday
  | today
  | blockers
  | complete
deriving Repr, DecidableEq

/-- Numeric position of a step in the forward order. -/
def stepIdx : Step → Nat
  | .feeling => 0
  | .yesterday => 1
  | .today => 2
  | .blockers => 3
  | .complete => 4

/-- `StandupFlowState`: one user's in-progress session.  Times are epoch
milliseconds (`Int`, as JS `Date.getTime()` differences can be negative). -/
structure StandupFlowState where
  userId : String
  userName : String
  step : Step
  feeling : Option String
  yesterday : List TaskEntry
  today : List TaskEntry
  startTime : Int
deriving Repr, DecidableEq

/-- `StandupData`: the persisted record built at finalization.
`feeling` stays optional: the source reads `state.feeling!`, which at
runtime passes through whatever the session holds. -/
structure StandupData where
  userId : String
  userName : String
  feeling : Option String
  yesterday : List TaskEntry
  today : List TaskEntry
  blockers : String
  date : String
deriving Repr, DecidableEq

/-- `ProjectChannel` routing entry. -/
structure ProjectChannel where
  projectName : String
  channelId : String
  channelName : String
  isActive : Bool
deriving Repr, DecidableEq

/-- `CheckInRecord` (the stored fields the queries touch). -/
structure CheckInRecord where
  userId : String
  userName : String
  userEmail : String
  type : String
  timestamp : Int
deriving Repr, DecidableEq

/-! ## Flow State Store (`Map<string, StandupFlowState>`) -/

/-- The in-memory session table, as an association list. -/
abbrev FlowStore := List (String × StandupFlowState)

/-- `Map.get`. -/
def fsGet : FlowStore → String → Option StandupFlowState
  | [], _ => none
  | (k, s) :: rest, u => if k = u then some s else fsGet rest u

/-- `Map.set`: replace in place when present, else append (JS insertion
order). -/
def fsSet : FlowStore → String → StandupFlowState → FlowStore
  | [], u, s => [(u, s)]
  | (k, t) :: rest, u, s =>
    if k = u then (u, s) :: rest else (k, t) :: fsSet rest u s

/-- `Map.delete`. -/
def fsDelete : FlowStore → String → FlowStore
  | [], _ => []
  | (k, t) :: rest, u =>
    if k = u then fsDelete rest u else (k, t) :: fsDelete rest u

/-- `Map.has` (the body of `hasActiveFlow`). -/
def fsHas : FlowStore → String → Bool
  | [], _ => false
  | (k, _) :: rest, u => k = u || fsHas rest u

/-- A real JS `Map` has pairwise-distinct keys. -/
def keysNodup (σ : FlowStore) : Prop := (σ.map Prod.fst).Nodup

/-! ## External environment

The orchestrator awaits four external effects: `firebaseService.saveStandup`
(may throw), `firebaseService.getBotConfig` (catches internally, never
throws), `firebaseService.getProjectChannel` (catches internally, returns
`null` on error), Slack `views.open` / `views.update` / `chat.postMessage`
(may throw).  `Env` fixes the outcome of each call. -/
structure Env where
  /-- Does `firebaseService.saveStandup` succeed? -/
  saveStandupOk : Bool
  /-- The `projectChannels` collection contents. -/
  projectChannels : List ProjectChannel
  /-- Does `chat.postMessage` to a given channel id succeed? -/
  postOk : String → Bool
  /-- Does `client.views.open` succeed? -/
  viewsOpenOk : Bool
  /-- Does `client.views.update` succeed? -/
  viewsUpdateOk : Bool
  /-- `config.projects` from `getBotConfig` (total: that call never throws). -/
  configProjects : List String
  /-- `new Date().getTime()` in milliseconds. -/
  nowMs : Int
  /-- `new Date().toISOString().split('T')[0]` at finalization. -/
  todayDate : String

/-- Errors the orchestrator can throw to its caller. -/
inductive FlowError
  | noState
  | saveFailed
  | gatewayFailed
deriving Repr, DecidableEq

/-! ## Orchestrator operations (standup-flow.service.ts) -/

/-- `startStandupFlow`: unconditionally `set` a fresh session, then
`views.open` (which may throw; the catch block rethrows). -/
def startStandupFlow (env : Env) (σ : FlowStore) (userId userName : String) :
    Except FlowError Unit × FlowStore :=
  let σ' := fsSet σ userId
    { userId := userId, userName := userName, step := .feeling,
      feeling := none, yesterday := [], today := [],
      startTime := env.nowMs }
  if env.viewsOpenOk then (.ok (), σ') else (.error .gatewayFailed, σ')

/-- `handleFeelingSubmit`: look up the session (throw if absent), set
`feeling` and `step := 'yesterday'`, then `getBotConfig` (total) and
`views.update` (may throw, after the mutation). -/
def handleFeelingSubmit (env : Env) (σ : FlowStore) (userId feeling : String) :
    Except FlowError Unit × FlowStore :=
  match fsGet σ userId with
  | none => (.error .noState, σ)
  | some state =>
    let σ' := fsSet σ userId { state with feeling := some feeling, step := .yesterday }
    if env.viewsUpdateOk then (.ok (), σ') else (.error .gatewayFailed, σ')

/-- The `TaskEntry` literal built inside `handleTaskSubmit`. -/
def buildTask (taskData : TaskEntryFormData) : TaskEntry :=
  { project := taskData.project,
    ticketNumber := jsOrString taskData.ticketNumber "N/A",
    taskTitle := taskData.taskTitle,
    estimatedTime := taskData.estimatedTime,
    confidenceScore := jsParseInt taskData.confidenceScore,
    difficultyLevel := jsParseInt taskData.difficultyLevel }

/-- Which task list an operation targets. -/
inductive TaskType
  | yesterday
  | today
deriving Repr, DecidableEq

/-- `handleTaskSubmit`: look up the session (throw if absent), push the
built task onto the targeted list; with `addAnother` stay on the step,
otherwise advance `yesterday → today` or `today → blockers`; the final
`views.update` may throw after the state is already stored. -/
def handleTaskSubmit (env : Env) (σ : FlowStore) (userId : String)
    (taskType : TaskType) (taskData : TaskEntryFormData) (addAnother : Bool) :
    Except FlowError Unit × FlowStore :=
  match fsGet σ userId with
  | none => (.error .noState, σ)
  | some state =>
    let task := buildTask taskData
    let state1 :=
      match taskType with
      | .yesterday => { state with yesterday := state.yesterday ++ [task] }
      | .today => { state with today := state.today ++ [task] }
    let σ1 := fsSet σ userId state1
    if addAnother then
      if env.viewsUpdateOk then (.ok (), σ1) else (.error .gatewayFailed, σ1)
    else
      let state2 :=
        match taskType with
        | .yesterday => { state1 with step := .today }
        | .today => { state1 with step := .blockers }
      let σ2 := fsSet σ1 userId state2
      if env.viewsUpdateOk then (.ok (), σ2) else (.error .gatewayFailed, σ2)

/-- `getProjectChannel`: query `projectChannels` filtered by name and
`isActive == true`, `limit(1)` (first match). -/
def getProjectChannel (env : Env) (projectName : String) : Option ProjectChannel :=
  (env.projectChannels.filter
    (fun c => c.projectName = projectName ∧ c.isActive = true)).head?

/-- The `Set<string>` of projects collected from both task lists, in JS
`Set` insertion order (first occurrence wins). -/
def distinctProjects (standup : StandupData) : List String :=
  ((standup.yesterday.map TaskEntry.project) ++ (standup.today.map TaskEntry.project)).foldl
    (fun acc p => if p ∈ acc then acc else acc ++ [p]) []

/-- One attempted `chat.postMessage`: destination channel id and whether
the call succeeded. -/
abbrev Post := String × Bool

/-- The loop body of `postToProjectChannels` over the distinct projects:
resolve the channel; if mapped, attempt the post (a per-post failure is
caught and logged, the loop continues); if unmapped, skip. -/
def postLoop (env : Env) : List String → List Post
  | [] => []
  | p :: ps =>
    match getProjectChannel env p with
    | some channel => (channel.channelId, env.postOk channel.channelId) :: postLoop env ps
    | none => postLoop env ps

/-- `postToProjectChannels`: collect distinct projects, then post to each
mapped channel.  Total — the outer catch absorbs every error. -/
def postToProjectChannels (env : Env) (standup : StandupData) : List Post :=
  postLoop env (distinctProjects standup)

/-- `handleBlockersSubmit`: look up the session (throw if absent), build
the `StandupData` with today's date, `saveStandup` (throw on store error,
session untouched), fan out to project channels (never throws), delete the
session, return the record.  Also threads the persisted-records store
`db` to make the fan-out's read-only nature provable. -/
def handleBlockersSubmit (env : Env) (σ : FlowStore) (db : List StandupData)
    (userId blockers : String) :
    Except FlowError StandupData × FlowStore × List StandupData × List Post :=
  match fsGet σ userId with
  | none => (.error .noState, σ, db, [])
  | some state =>
    let standupData : StandupData :=
      { userId := state.userId, userName := state.userName,
        feeling := state.feeling,
        yesterday := state.yesterday, today := state.today,
        blockers := jsOrString blockers "",
        date := env.todayDate }
    if env.saveStandupOk then
      let db' := db ++ [standupData]
      let posts := postToProjectChannels env standupData
      (.ok standupData, fsDelete σ userId, db', posts)
    else
      (.error .saveFailed, σ, db, [])

/-- `cancelStandupFlow`. -/
def cancelStandupFlow (σ : FlowStore) (userId : String) : FlowStore :=
  fsDelete σ userId

/-- `getStandupState`. -/
def getStandupState (σ : FlowStore) (userId : String) : Option StandupFlowState :=
  fsGet σ userId

/-- `hasActiveFlow`. -/
def hasActiveFlow (σ : FlowStore) (userId : String) : Bool :=
  fsHas σ userId

/-- `cleanupOldStates`: delete every session with
`now - startTime > maxAgeMinutes * 60 * 1000`. -/
def cleanupOldStates (nowMs : Int) (σ : FlowStore) (maxAgeMinutes : Int) : FlowStore :=
  σ.filter (fun p => ¬ nowMs - p.2.startTime > maxAgeMinutes * 60 * 1000)

/-! ## Dispatcher layer (bot.ts) -/

/-- What the `standup_feeling_submit` handler acks back to Slack. -/
inductive AckResponse
  | updateView
  | fieldErrors (blockId msg : String)
deriving Repr, DecidableEq

/-- bot.ts `standup_feeling_submit`: `!feeling` (undefined or `""`) acks a
field-keyed error and returns without touching the service; otherwise it
calls `handleFeelingSubmit`, acking a field error if that throws. -/
def standupFeelingSubmitHandler (env : Env) (σ : FlowStore) (userId : String)
    (feeling : Option String) : AckResponse × FlowStore :=
  if feeling = none ∨ feeling = some "" then
    (.fieldErrors "feeling_selection" "Please select how you are feeling", σ)
  else
    match handleFeelingSubmit env σ userId ((feeling.getD "")) with
    | (.ok _, σ') => (.updateView, σ')
    | (.error _, σ') =>
      (.fieldErrors "feeling_selection" "An error occurred. Please try again.", σ')

/-- bot.ts `task_entry_*` field extraction: each `values.…?.…?.value || d`
with the defaults hard-coded in the handler. -/
def extractTaskFormData (v : RawTaskForm) : TaskEntryFormData :=
  { project := jsOrOpt v.project "",
    ticketNumber := jsOrOpt v.ticketNumber "N/A",
    taskTitle := jsOrOpt v.taskTitle "",
    estimatedTime := v.estimatedTime,
    confidenceScore := jsOrOpt v.confidenceScore "3",
    difficultyLevel := jsOrOpt v.difficultyLevel "3" }

/-- Outcome of the `/standup` slash-command handler. -/
inductive StandupCommandResult
  | warnedActive
  | started
  | errorResponded
deriving Repr, DecidableEq

/-- bot.ts `/standup`: refuse when `hasActiveFlow`, else start the flow;
an error from `startStandupFlow` is caught and answered with an ephemeral
error message. -/
def standupCommand (env : Env) (σ : FlowStore) (userId userName : String) :
    StandupCommandResult × FlowStore :=
  if hasActiveFlow σ userId then
    (.warnedActive, σ)
  else
    match startStandupFlow env σ userId userName with
    | (.ok _, σ') => (.started, σ')
    | (.error _, σ') => (.errorResponded, σ')

/-! ## Check-in queries (firebase.service.ts) -/

/-- One step of selecting the most recent record (the earlier document
wins a tie, matching a stable descending sort). -/
def latestStep (best : Option CheckInRecord) (r : CheckInRecord) : Option CheckInRecord :=
  match best with
  | none => some r
  | some b => if r.timestamp > b.timestamp then some r else some b

/-- `getLastCheckIn`: `where('userId','==',u).orderBy('timestamp','desc')
.limit(1)` — the user's record with the greatest timestamp. -/
def getLastCheckIn (db : List CheckInRecord) (userId : String) : Option CheckInRecord :=
  (db.filter (fun r => r.userId = userId)).foldl latestStep none

/-- `isUserCheckedIn`: `lastCheckIn !== null && lastCheckIn.type === 'checkin'`. -/
def isUserCheckedIn (db : List CheckInRecord) (userId : String) : Bool :=
  match getLastCheckIn db userId with
  | none => false
  | some r => r.type = "checkin"

/-! ## Operation traces (for the step-monotonicity invariant) -/

/-- One orchestrator operation, as dispatched for some user. -/
inductive Op
  | submitFeeling (userId feeling : String)
  | submitTask (userId : String) (taskType : TaskType)
      (taskData : TaskEntryFormData) (addAnother : Bool)
  | submitBlockers (userId blockers : String)
  | cancel (userId : String)
  | sweep (nowMs maxAgeMinutes : Int)

/-- Apply one operation to the flow store (the record store and posts are
irrelevant to the session-table invariants, so only `σ` is threaded). -/
def applyOp (env : Env) (σ : FlowStore) : Op → FlowStore
  | .submitFeeling u f => (handleFeelingSubmit env σ u f).2
  | .submitTask u tt d a => (handleTaskSubmit env σ u tt d a).2
  | .submitBlockers u b => (handleBlockersSubmit env σ [] u b).2.1
  | .cancel u => cancelStandupFlow σ u
  | .sweep now m => cleanupOldStates now σ m

/-- Apply a sequence of operations left to right. -/
def applyOps (env : Env) (σ : FlowStore) (ops : List Op) : FlowStore :=
  ops.foldl (applyOp env) σ

/-- The step a task-submission form answers. -/
def stepOfTaskType : TaskType → Step
  | .yesterday => .yesterday
  | .today => .today

/-- An operation "respects" the store when the submission it carries
matches the current step of that user's session (the discipline the Slack
modal sequence enforces); cancel and sweep are unconstrained. -/
def respects (σ : FlowStore) : Op → Prop
  | .submitFeeling u _ => ∀ s, fsGet σ u = some s → s.step = .feeling
  | .submitTask u tt _ _ => ∀ s, fsGet σ u = some s → s.step = stepOfTaskType tt
  | .submitBlockers u _ => ∀ s, fsGet σ u = some s → s.step = .blockers
  | .cancel _ => True
  | .sweep _ _ => True

/-- Every operation along the trace respects the store it runs against. -/
def RespectfulFrom (env : Env) (σ : FlowStore) : List Op → Prop
  | [] => True
  | op :: ops => respects σ op ∧ RespectfulFrom env (applyOp env σ op) ops

/-- The task list of a session targeted by a `TaskType`. -/
def taskList (s : StandupFlowState) : TaskType → List TaskEntry
  | .yesterday => s.yesterday
  | .today => s.today

/-- The session value after `handleTaskSubmit` pushes one built task
(the `state1` literal in the source). -/
def pushTask (s : StandupFlowState) (tt : TaskType) (t : TaskEntry) : StandupFlowState :=
  match tt with
  | .yesterday => { s with yesterday := s.yesterday ++ [t] }
  | .today => { s with today := s.today ++ [t] }

/-- A run of `handleTaskSubmit` calls with `addAnother = true`, fed one
form submission after another. -/
def submitMany (env : Env) (σ : FlowStore) (u : String) (tt : TaskType) :
    List TaskEntryFormData → FlowStore
  | [] => σ
  | d :: ds => submitMany env (handleTaskSubmit env σ u tt d true).2 u tt ds

/-! ### Store lemmas -/

theorem fsGet_fsSet_self (σ : FlowStore) (u : String) (s : StandupFlowState) :
    fsGet (fsSet σ u s) u = some s := by
  induction σ with
  | nil => simp [fsSet, fsGet]
  | cons hd tl ih =>
    obtain ⟨k, t⟩ := hd
    by_cases hk : k = u
    · simp [fsSet, fsGet, hk]
    · simp [fsSet, fsGet, hk, ih]

theorem fsGet_fsSet_other (σ : FlowStore) (u v : String) (s : StandupFlowState)
    (hne : v ≠ u) : fsGet (fsSet σ u s) v = fsGet σ v := by
  induction σ with
  | nil =>
    have hne' : ¬ u = v := fun h => hne h.symm
    simp [fsSet, fsGet, hne']
  | cons hd tl ih =>
    obtain ⟨k, t⟩ := hd
    by_cases hk : k = u
    · subst hk
      have hkv : ¬ k = v := fun h => hne h.symm
      simp [fsSet, fsGet, hkv]
    · simp only [fsSet, if_neg hk]
      by_cases hkv : k = v
      · simp [fsGet, hkv]
      · simp [fsGet, hkv, ih]

theorem fsGet_fsDelete_self (σ : FlowStore) (u : String) :
    fsGet (fsDelete σ u) u = none := by
  induction σ with
  | nil => simp [fsDelete, fsGet]
  | cons hd tl ih =>
    obtain ⟨k, t⟩ := hd
    by_cases hk : k = u
    · simpa [fsDelete, hk] using ih
    · simp [fsDelete, fsGet, hk, ih]

theorem fsGet_fsDelete_other (σ : FlowStore) (u v : String) (hne : v ≠ u) :
    fsGet (fsDelete σ u) v = fsGet σ v := by
  induction σ with
  | nil => simp [fsDelete]
  | cons hd tl ih =>
    obtain ⟨k, t⟩ := hd
    by_cases hk : k = u
    · subst hk
      have hkv : ¬ k = v := fun h => hne h.symm
      simp [fsDelete, fsGet, hkv, ih]
    · simp only [fsDelete, if_neg hk]
      by_cases hkv : k = v
      · simp [fsGet, hkv]
      · simp [fsGet, hkv, ih]

theorem fsHas_eq_isSome (σ : FlowStore) (u : String) :
    fsHas σ u = (fsGet σ u).isSome := by
  induction σ with
  | nil => simp [fsHas, fsGet]
  | cons hd tl ih =>
    obtain ⟨k, t⟩ := hd
    by_cases hk : k = u
    · simp [fsHas, fsGet, hk]
    · simp [fsHas, fsGet, hk, ih]

/-! ## Claim theorems -/

/-- C4: for every submitted task form, the built `TaskEntry` has ticket
reference `"N/A"` whenever the submitted ticket field is blank (missing or
empty), and confidence / difficulty parse to the integer 3 whenever the
corresponding field is missing — a lenient fallback, never a failure. -/
theorem task_entry_defaults (v : RawTaskForm) :
    ((v.ticketNumber = none ∨ v.ticketNumber = some "") →
      (buildTask (extractTaskFormData v)).ticketNumber = "N/A")
    ∧ (v.confidenceScore = none →
      (buildTask (extractTaskFormData v)).confidenceScore = some 3)
    ∧ (v.difficultyLevel = none →
      (buildTask (extractTaskFormData v)).difficultyLevel = some 3) := by
  refine ⟨?_, ?_, ?_⟩
  · rintro (h | h) <;> simp [buildTask, extractTaskFormData, jsOrOpt, jsOrString, h]
  · intro h
    simp only [buildTask, extractTaskFormData, jsOrOpt, h]
    decide
  · intro h
    simp only [buildTask, extractTaskFormData, jsOrOpt, h]
    decide

/-- Witness for C4 at a concrete form with blank ticket and missing
confidence / difficulty selections. -/
theorem task_entry_defaults_witness :
    (buildTask (extractTaskFormData
      ⟨some "Alpha", some "", some "Fix bug", some "2-3h", none, none⟩)).ticketNumber = "N/A"
    ∧ (buildTask (extractTaskFormData
      ⟨some "Alpha", some "", some "Fix bug", some "2-3h", none, none⟩)).confidenceScore = some 3
    ∧ (buildTask (extractTaskFormData
      ⟨some "Alpha", some "", some "Fix bug", some "2-3h", none, none⟩)).difficultyLevel = some 3 :=
  ⟨(task_entry_defaults _).1 (Or.inr rfl),
   (task_entry_defaults _).2.1 rfl,
   (task_entry_defaults _).2.2 rfl⟩

/-- C3: for a user with an active session, an empty or absent feeling is
rejected with a field-level error on `feeling_selection` and the flow
store is left completely unchanged; a non-empty feeling sets
`session.feeling` and advances `step` to `yesterday`. -/
theorem submit_feeling_validation (env : Env) (σ : FlowStore) (u : String)
    (feeling : Option String) (s : StandupFlowState) (hs : fsGet σ u = some s) :
    ((feeling = none ∨ feeling = some "") →
      standupFeelingSubmitHandler env σ u feeling
        = (.fieldErrors "feeling_selection" "Please select how you are feeling", σ))
    ∧ (∀ f, feeling = some f → f ≠ "" →
      ∃ s', fsGet (standupFeelingSubmitHandler env σ u feeling).2 u = some s'
        ∧ s'.feeling = some f ∧ s'.step = .yesterday) := by
  constructor
  · intro h
    simp only [standupFeelingSubmitHandler, if_pos h]
  · intro f hf hne
    subst hf
    have hcond : ¬ ((some f : Option String) = none ∨ (some f : Option String) = some "") := by
      simp [hne]
    simp only [standupFeelingSubmitHandler, if_neg hcond, Option.getD_some]
    simp only [handleFeelingSubmit, hs]
    by_cases hv : env.viewsUpdateOk = true
    · simp only [hv, if_true]
      exact ⟨_, fsGet_fsSet_self σ u _, rfl, rfl⟩
    · simp only [Bool.not_eq_true] at hv
      simp only [hv, Bool.false_eq_true, if_false]
      exact ⟨_, fsGet_fsSet_self σ u _, rfl, rfl⟩

/-- Witness for C3: a concrete store with one session; an absent feeling
is rejected leaving the store unchanged, and feeling `"good"` advances. -/
theorem submit_feeling_validation_witness :
    (standupFeelingSubmitHandler
        ⟨true, [], fun _ => true, true, true, [], 0, "2026-10-11"⟩
        [("alice", ⟨"alice", "Alice", .feeling, none, [], [], 0⟩)] "alice" none
      = (.fieldErrors "feeling_selection" "Please select how you are feeling",
          [("alice", ⟨"alice", "Alice", .feeling, none, [], [], 0⟩)]))
    ∧ (∃ s', fsGet (standupFeelingSubmitHandler
        ⟨true, [], fun _ => true, true, true, [], 0, "2026-10-11"⟩
        [("alice", ⟨"alice", "Alice", .feeling, none, [], [], 0⟩)] "alice" (some "good")).2
          "alice" = some s'
        ∧ s'.feeling = some "good" ∧ s'.step = .yesterday) :=
  ⟨(submit_feeling_validation ⟨true, [], fun _ => true, true, true, [], 0, "2026-10-11"⟩
      [("alice", ⟨"alice", "Alice", .feeling, none, [], [], 0⟩)] "alice" none
      ⟨"alice", "Alice", .feeling, none, [], [], 0⟩ rfl).1 (Or.inl rfl),
   (submit_feeling_validation ⟨true, [], fun _ => true, true, true, [], 0, "2026-10-11"⟩
      [("alice", ⟨"alice", "Alice", .feeling, none, [], [], 0⟩)] "alice" (some "good")
      ⟨"alice", "Alice", .feeling, none, [], [], 0⟩ rfl).2 "good" rfl (by decide)⟩

/-- C1: for a user with an active session, finalization deletes the
session exactly when the store write succeeds; on a store failure the
error propagates, the store is unchanged, and `hasActiveFlow` stays
true so finalization can be retried. -/
theorem finalize_deletes_iff_save (env : Env) (σ : FlowStore)
    (db : List StandupData) (u b : String) (s : StandupFlowState)
    (hs : fsGet σ u = some s) :
    (env.saveStandupOk = true →
        (handleBlockersSubmit env σ db u b).2.1 = fsDelete σ u
      ∧ hasActiveFlow (handleBlockersSubmit env σ db u b).2.1 u = false
      ∧ ∃ r, (handleBlockersSubmit env σ db u b).1 = .ok r)
    ∧ (env.saveStandupOk = false →
        (handleBlockersSubmit env σ db u b).1 = .error .saveFailed
      ∧ (handleBlockersSubmit env σ db u b).2.1 = σ
      ∧ hasActiveFlow (handleBlockersSubmit env σ db u b).2.1 u = true) := by
  constructor
  · intro hsave
    refine ⟨?_, ?_, ?_⟩
    · simp only [handleBlockersSubmit, hs, hsave, if_true]
    · simp only [handleBlockersSubmit, hs, hsave, if_true]
      rw [hasActiveFlow, fsHas_eq_isSome, fsGet_fsDelete_self]
      rfl
    · simp only [handleBlockersSubmit, hs, hsave, if_true]
      exact ⟨_, rfl⟩
  · intro hsave
    refine ⟨?_, ?_, ?_⟩
    · simp only [handleBlockersSubmit, hs, hsave, Bool.false_eq_true, if_false]
    · simp only [handleBlockersSubmit, hs, hsave, Bool.false_eq_true, if_false]
    · simp only [handleBlockersSubmit, hs, hsave, Bool.false_eq_true, if_false]
      rw [hasActiveFlow, fsHas_eq_isSome, hs]
      rfl

/-- Witness for C1: a concrete session finalized under a successful and
under a failing store write. -/
theorem finalize_deletes_iff_save_witness :
    ((handleBlockersSubmit ⟨true, [], fun _ => true, true, true, [], 0, "2026-10-11"⟩
        [("alice", ⟨"alice", "Alice", .blockers, some "good", [], [], 0⟩)] [] "alice" "").2.1 = []
      ∧ hasActiveFlow
          (handleBlockersSubmit ⟨true, [], fun _ => true, true, true, [], 0, "2026-10-11"⟩
            [("alice", ⟨"alice", "Alice", .blockers, some "good", [], [], 0⟩)] [] "alice" "").2.1
          "alice" = false)
    ∧ ((handleBlockersSubmit ⟨false, [], fun _ => true, true, true, [], 0, "2026-10-11"⟩
        [("alice", ⟨"alice", "Alice", .blockers, some "good", [], [], 0⟩)] [] "alice" "").1
          = .error .saveFailed
      ∧ hasActiveFlow
          (handleBlockersSubmit ⟨false, [], fun _ => true, true, true, [], 0, "2026-10-11"⟩
            [("alice", ⟨"alice", "Alice", .blockers, some "good", [], [], 0⟩)] [] "alice" "").2.1
          "alice" = true) :=
  ⟨⟨((finalize_deletes_iff_save ⟨true, [], fun _ => true, true, true, [], 0, "2026-10-11"⟩
        [("alice", ⟨"alice", "Alice", .blockers, some "good", [], [], 0⟩)] [] "alice" ""
        ⟨"alice", "Alice", .blockers, some "good", [], [], 0⟩ rfl).1 rfl).1,
    ((finalize_deletes_iff_save ⟨true, [], fun _ => true, true, true, [], 0, "2026-10-11"⟩
        [("alice", ⟨"alice", "Alice", .blockers, some "good", [], [], 0⟩)] [] "alice" ""
        ⟨"alice", "Alice", .blockers, some "good", [], [], 0⟩ rfl).1 rfl).2.1⟩,
   ⟨((finalize_deletes_iff_save ⟨false, [], fun _ => true, true, true, [], 0, "2026-10-11"⟩
        [("alice", ⟨"alice", "Alice", .blockers, some "good", [], [], 0⟩)] [] "alice" ""
        ⟨"alice", "Alice", .blockers, some "good", [], [], 0⟩ rfl).2 rfl).1,
    ((finalize_deletes_iff_save ⟨false, [], fun _ => true, true, true, [], 0, "2026-10-11"⟩
        [("alice", ⟨"alice", "Alice", .blockers, some "good", [], [], 0⟩)] [] "alice" ""
        ⟨"alice", "Alice", .blockers, some "good", [], [], 0⟩ rfl).2 rfl).2.2⟩⟩

/-- One `handleTaskSubmit` with `addAnother = true` updates the session to
`pushTask` of the built entry (regardless of the later `views.update`). -/
theorem fsGet_handleTaskSubmit_addAnother (env : Env) (σ : FlowStore) (u : String)
    (tt : TaskType) (d : TaskEntryFormData) (s : StandupFlowState)
    (hs : fsGet σ u = some s) :
    fsGet (handleTaskSubmit env σ u tt d true).2 u = some (pushTask s tt (buildTask d)) := by
  cases tt <;>
  · simp only [handleTaskSubmit, hs, pushTask, if_true]
    by_cases hv : env.viewsUpdateOk = true
    · simp only [hv, if_true]
      exact fsGet_fsSet_self σ u _
    · simp only [Bool.not_eq_true] at hv
      simp only [hv, Bool.false_eq_true, if_false]
      exact fsGet_fsSet_self σ u _

/-- A run of `addAnother` submissions appends the built entries in order,
leaving step and start time alone. -/
theorem submitMany_taskList (env : Env) (u : String) (tt : TaskType)
    (ds : List TaskEntryFormData) :
    ∀ (σ : FlowStore) (s : StandupFlowState), fsGet σ u = some s →
    ∃ s', fsGet (submitMany env σ u tt ds) u = some s'
      ∧ taskList s' tt = taskList s tt ++ ds.map buildTask
      ∧ s'.step = s.step ∧ s'.startTime = s.startTime := by
  induction ds with
  | nil =>
    intro σ s hs
    exact ⟨s, hs, by simp [submitMany], rfl, rfl⟩
  | cons d ds ih =>
    intro σ s hs
    have h1 := fsGet_handleTaskSubmit_addAnother env σ u tt d s hs
    obtain ⟨s', hget, hlist, hstep, hstart⟩ := ih _ _ h1
    refine ⟨s', hget, ?_, ?_, ?_⟩
    · rw [hlist]
      cases tt <;> simp [pushTask, taskList]
    · rw [hstep]; cases tt <;> simp [pushTask]
    · rw [hstart]; cases tt <;> simp [pushTask]

/-- C5: starting from a session whose targeted list is empty, `N`
`submitTask` calls with `addAnother = true` leave a list of length exactly
`N` whose order equals the submission order (append-only). -/
theorem submit_tasks_append_only (env : Env) (σ : FlowStore) (u : String)
    (tt : TaskType) (ds : List TaskEntryFormData) (s : StandupFlowState)
    (hs : fsGet σ u = some s) (hempty : taskList s tt = []) :
    ∃ s', fsGet (submitMany env σ u tt ds) u = some s'
      ∧ taskList s' tt = ds.map buildTask
      ∧ (taskList s' tt).length = ds.length := by
  obtain ⟨s', hget, hlist, _, _⟩ := submitMany_taskList env u tt ds σ s hs
  refine ⟨s', hget, ?_, ?_⟩
  · rw [hlist, hempty]; simp
  · rw [hlist, hempty]; simp

/-- Witness for C5: two concrete submissions to the yesterday list. -/
theorem submit_tasks_append_only_witness :
    ∃ s', fsGet (submitMany ⟨true, [], fun _ => true, true, true, [], 0, "2026-10-11"⟩
        [("alice", ⟨"alice", "Alice", .yesterday, some "good", [], [], 0⟩)] "alice" .yesterday
        [⟨"Alpha", "T-1", "task one", some "1-2h", "4", "2"⟩,
         ⟨"Beta", "", "task two", some "2-3h", "5", "1"⟩]) "alice" = some s'
      ∧ taskList s' .yesterday
          = [buildTask ⟨"Alpha", "T-1", "task one", some "1-2h", "4", "2"⟩,
             buildTask ⟨"Beta", "", "task two", some "2-3h", "5", "1"⟩]
      ∧ (taskList s' .yesterday).length = 2 :=
  submit_tasks_append_only ⟨true, [], fun _ => true, true, true, [], 0, "2026-10-11"⟩
    [("alice", ⟨"alice", "Alice", .yesterday, some "good", [], [], 0⟩)] "alice" .yesterday
    [⟨"Alpha", "T-1", "task one", some "1-2h", "4", "2"⟩,
     ⟨"Beta", "", "task two", some "2-3h", "5", "1"⟩]
    ⟨"alice", "Alice", .yesterday, some "good", [], [], 0⟩ rfl rfl

/-- C10: `startStandupFlow` stores the fresh session (step `feeling`,
empty lists, start time stamped) before opening the form, so even when
`views.open` fails the error propagates while `hasActiveFlow` is already
true — and the `/standup` command then refuses to start a new flow. -/
theorem start_flow_state_before_open (env : Env) (σ : FlowStore) (u n : String) :
    fsGet (startStandupFlow env σ u n).2 u
        = some ⟨u, n, .feeling, none, [], [], env.nowMs⟩
    ∧ hasActiveFlow (startStandupFlow env σ u n).2 u = true
    ∧ (env.viewsOpenOk = false →
        (startStandupFlow env σ u n).1 = .error .gatewayFailed)
    ∧ (hasActiveFlow σ u = true → standupCommand env σ u n = (.warnedActive, σ)) := by
  have hget : fsGet (startStandupFlow env σ u n).2 u
      = some ⟨u, n, .feeling, none, [], [], env.nowMs⟩ := by
    simp only [startStandupFlow]
    by_cases hv : env.viewsOpenOk = true
    · simp only [hv, if_true]
      exact fsGet_fsSet_self σ u _
    · simp only [Bool.not_eq_true] at hv
      simp only [hv, Bool.false_eq_true, if_false]
      exact fsGet_fsSet_self σ u _
  refine ⟨hget, ?_, ?_, ?_⟩
  · rw [hasActiveFlow, fsHas_eq_isSome, hget]; rfl
  · intro hv
    simp only [startStandupFlow, hv, Bool.false_eq_true, if_false]
  · intro hactive
    simp only [standupCommand, hactive, if_true]

/-- Witness for C10: a failing `views.open` still leaves the flow active,
and `/standup` refuses while a flow is active. -/
theorem start_flow_state_before_open_witness :
    hasActiveFlow (startStandupFlow ⟨true, [], fun _ => true, false, true, [], 5, "2026-10-11"⟩
        [] "alice" "Alice").2 "alice" = true
    ∧ (startStandupFlow ⟨true, [], fun _ => true, false, true, [], 5, "2026-10-11"⟩
        [] "alice" "Alice").1 = .error .gatewayFailed
    ∧ standupCommand ⟨true, [], fun _ => true, false, true, [], 5, "2026-10-11"⟩
        [("alice", ⟨"alice", "Alice", .feeling, none, [], [], 0⟩)] "alice" "Alice"
        = (.warnedActive, [("alice", ⟨"alice", "Alice", .feeling, none, [], [], 0⟩)]) :=
  ⟨(start_flow_state_before_open ⟨true, [], fun _ => true, false, true, [], 5, "2026-10-11"⟩
      [] "alice" "Alice").2.1,
   (start_flow_state_before_open ⟨true, [], fun _ => true, false, true, [], 5, "2026-10-11"⟩
      [] "alice" "Alice").2.2.1 rfl,
   (start_flow_state_before_open ⟨true, [], fun _ => true, false, true, [], 5, "2026-10-11"⟩
      [("alice", ⟨"alice", "Alice", .feeling, none, [], [], 0⟩)] "alice" "Alice").2.2.2
      (by decide)⟩

/-- `latestStep` always yields a record at least as recent as both the
accumulator and the new record, and comes from one of them. -/
theorem latestStep_spec (acc : Option CheckInRecord) (hd : CheckInRecord) :
    ∃ b', latestStep acc hd = some b'
      ∧ hd.timestamp ≤ b'.timestamp
      ∧ (∀ b, acc = some b → b.timestamp ≤ b'.timestamp)
      ∧ (acc = some b' ∨ b' = hd) := by
  cases acc with
  | none => exact ⟨hd, rfl, le_refl _, by simp, Or.inr rfl⟩
  | some b =>
    by_cases h : hd.timestamp > b.timestamp
    · refine ⟨hd, by simp [latestStep, h], le_refl _, ?_, Or.inr rfl⟩
      intro b0 hb0
      cases hb0
      exact le_of_lt h
    · refine ⟨b, by simp [latestStep, h], le_of_not_lt h, ?_, Or.inl rfl⟩
      intro b0 hb0
      cases hb0
      exact le_refl _

/-- The fold of `latestStep` returns an element of the accumulator or the
list, no less recent than every element seen. -/
theorem latestFold_spec :
    ∀ (l : List CheckInRecord) (acc : Option CheckInRecord) (r : CheckInRecord),
    l.foldl latestStep acc = some r →
    (acc = some r ∨ r ∈ l)
    ∧ (∀ b, acc = some b → b.timestamp ≤ r.timestamp)
    ∧ (∀ x ∈ l, x.timestamp ≤ r.timestamp) := by
  intro l
  induction l with
  | nil =>
    intro acc r h
    simp only [List.foldl_nil] at h
    exact ⟨Or.inl h, fun b hb => by rw [h] at hb; cases hb; exact le_refl _, by simp⟩
  | cons hd tl ih =>
    intro acc r h
    simp only [List.foldl_cons] at h
    obtain ⟨b', hstep, hhd, hacc, hfrom⟩ := latestStep_spec acc hd
    rw [hstep] at h
    obtain ⟨hmem, hle, hall⟩ := ih (some b') r h
    have hb'r : b'.timestamp ≤ r.timestamp := hle b' rfl
    refine ⟨?_, ?_, ?_⟩
    · rcases hmem with heq | hin
      · injection heq with heq
        subst heq
        rcases hfrom with hacc' | hhd'
        · exact Or.inl hacc'
        · exact Or.inr (by rw [hhd']; exact List.mem_cons_self _ _)
      · exact Or.inr (List.mem_cons_of_mem _ hin)
    · intro b hb
      exact le_trans (hacc b hb) hb'r
    · intro x hx
      rcases List.mem_cons.mp hx with hx | hx
      · subst hx; exact le_trans hhd hb'r
      · exact hall x hx

/-- C9: `isUserCheckedIn` is true exactly when the most recent check-in
record for the user exists and has kind `checkin`; with no record (empty
filtered collection) the user counts as checked out; and `getLastCheckIn`
indeed returns the user's most recent record. -/
theorem is_checked_in_spec (db : List CheckInRecord) (u : String) :
    (isUserCheckedIn db u = true ↔
      ∃ r, getLastCheckIn db u = some r ∧ r.type = "checkin")
    ∧ (db.filter (fun r => r.userId = u) = [] → isUserCheckedIn db u = false)
    ∧ (∀ r, getLastCheckIn db u = some r →
        r ∈ db ∧ r.userId = u
        ∧ ∀ x ∈ db, x.userId = u → x.timestamp ≤ r.timestamp) := by
  refine ⟨?_, ?_, ?_⟩
  · cases h : getLastCheckIn db u with
    | none =>
      simp only [isUserCheckedIn, h]
      constructor
      · intro hfalse; cases hfalse
      · rintro ⟨r, hr, _⟩; cases hr
    | some r =>
      simp only [isUserCheckedIn, h]
      constructor
      · intro htype
        exact ⟨r, rfl, by simpa using htype⟩
      · rintro ⟨r', hr', htype⟩
        injection hr' with hr'
        subst hr'
        simpa using htype
  · intro hempty
    simp only [isUserCheckedIn, getLastCheckIn, hempty, List.foldl_nil]
  · intro r hr
    rw [getLastCheckIn] at hr
    obtain ⟨hmem, _, hall⟩ := latestFold_spec _ none r hr
    rcases hmem with heq | hin
    · cases heq
    · have hin' := List.mem_filter.mp hin
      refine ⟨hin'.1, by simpa using hin'.2, ?_⟩
      intro x hx hxu
      exact hall x (List.mem_filter.mpr ⟨hx, by simpa using hxu⟩)

/-- Witness for C9: a user whose latest record is a check-out is reported
checked out; the most-recent selection picks the later timestamp. -/
theorem is_checked_in_spec_witness :
    (isUserCheckedIn
        [⟨"alice", "Alice", "a@x", "checkin", 10⟩, ⟨"alice", "Alice", "a@x", "checkout", 20⟩]
        "alice" = true ↔
      ∃ r, getLastCheckIn
        [⟨"alice", "Alice", "a@x", "checkin", 10⟩, ⟨"alice", "Alice", "a@x", "checkout", 20⟩]
        "alice" = some r ∧ r.type = "checkin")
    ∧ isUserCheckedIn [⟨"bob", "Bob", "b@x", "checkin", 10⟩] "alice" = false
    ∧ (⟨"alice", "Alice", "a@x", "checkout", 20⟩ : CheckInRecord) ∈
        [⟨"alice", "Alice", "a@x", "checkin", 10⟩, ⟨"alice", "Alice", "a@x", "checkout", 20⟩] :=
  ⟨(is_checked_in_spec
      [⟨"alice", "Alice", "a@x", "checkin", 10⟩, ⟨"alice", "Alice", "a@x", "checkout", 20⟩]
      "alice").1,
   (is_checked_in_spec [⟨"bob", "Bob", "b@x", "checkin", 10⟩] "alice").2.1 (by decide),
   ((is_checked_in_spec
      [⟨"alice", "Alice", "a@x", "checkin", 10⟩, ⟨"alice", "Alice", "a@x", "checkout", 20⟩]
      "alice").2.2 ⟨"alice", "Alice", "a@x", "checkout", 20⟩ (by decide)).1⟩

/-- The channel-post loop, declaratively: resolve each project, keep the
mapped ones, attempt one post each. -/
theorem postLoop_eq_filterMap (env : Env) (l : List String) :
    postLoop env l
      = (l.filterMap (getProjectChannel env)).map
          (fun c => (c.channelId, env.postOk c.channelId)) := by
  induction l with
  | nil => rfl
  | cons p ps ih =>
    cases h : getProjectChannel env p with
    | none => simp [postLoop, List.filterMap_cons, h, ih]
    | some c => simp [postLoop, List.filterMap_cons, h, ih]

/-- The `Set`-insertion fold keeps exactly the union of the accumulator
and the list. -/
theorem foldl_insertNew_mem (x : String) :
    ∀ (l acc : List String),
    (x ∈ l.foldl (fun acc p => if p ∈ acc then acc else acc ++ [p]) acc
      ↔ x ∈ acc ∨ x ∈ l) := by
  intro l
  induction l with
  | nil => intro acc; simp
  | cons p ps ih =>
    intro acc
    simp only [List.foldl_cons]
    by_cases hp : p ∈ acc
    · rw [if_pos hp, ih]
      constructor
      · rintro (h | h)
        · exact Or.inl h
        · exact Or.inr (List.mem_cons_of_mem _ h)
      · rintro (h | h)
        · exact Or.inl h
        · rcases List.mem_cons.mp h with h | h
          · exact Or.inl (h ▸ hp)
          · exact Or.inr h
    · rw [if_neg hp, ih]
      constructor
      · rintro (h | h)
        · rcases List.mem_append.mp h with h | h
          · exact Or.inl h
          · simp only [List.mem_singleton] at h
            exact Or.inr (List.mem_cons.mpr (Or.inl h))
        · exact Or.inr (List.mem_cons_of_mem _ h)
      · rintro (h | h)
        · exact Or.inl (List.mem_append.mpr (Or.inl h))
        · rcases List.mem_cons.mp h with h | h
          · exact Or.inl (List.mem_append.mpr (Or.inr (by simp [h])))
          · exact Or.inr h

/-- The `Set`-insertion fold never duplicates an element. -/
theorem foldl_insertNew_nodup :
    ∀ (l acc : List String), acc.Nodup →
    (l.foldl (fun acc p => if p ∈ acc then acc else acc ++ [p]) acc).Nodup := by
  intro l
  induction l with
  | nil => intro acc h; simpa using h
  | cons p ps ih =>
    intro acc h
    simp only [List.foldl_cons]
    by_cases hp : p ∈ acc
    · rw [if_pos hp]; exact ih acc h
    · rw [if_neg hp]
      refine ih _ ?_
      simpa [List.nodup_append] using ⟨h, hp⟩

/-- C6: `postToProjectChannels` attempts exactly one post per distinct
project of the record that resolves to an active channel mapping — the
distinct-project set is duplicate-free and collects precisely the
projects occurring in either task list, unmapped projects are skipped,
and a record with no tasks yields zero posts. -/
theorem distribute_one_post_per_project (env : Env) (standup : StandupData) :
    postToProjectChannels env standup
      = ((distinctProjects standup).filterMap (getProjectChannel env)).map
          (fun c => (c.channelId, env.postOk c.channelId))
    ∧ (distinctProjects standup).Nodup
    ∧ (∀ p, p ∈ distinctProjects standup ↔
        p ∈ standup.yesterday.map TaskEntry.project
          ++ standup.today.map TaskEntry.project)
    ∧ (standup.yesterday = [] → standup.today = [] →
        postToProjectChannels env standup = []) := by
  refine ⟨postLoop_eq_filterMap env _, ?_, ?_, ?_⟩
  · exact foldl_insertNew_nodup _ [] List.nodup_nil
  · intro p
    rw [distinctProjects, foldl_insertNew_mem]
    simp
  · intro h1 h2
    simp [postToProjectChannels, distinctProjects, h1, h2, postLoop]

/-- Witness for C6: a record with no tasks produces zero posts. -/
theorem distribute_one_post_per_project_witness :
    postToProjectChannels
      ⟨true, [⟨"Alpha", "C1", "proj-alpha", true⟩], fun _ => true, true, true, [], 0, "d"⟩
      ⟨"alice", "Alice", some "good", [], [], "", "2026-10-11"⟩ = [] :=
  (distribute_one_post_per_project
    ⟨true, [⟨"Alpha", "C1", "proj-alpha", true⟩], fun _ => true, true, true, [], 0, "d"⟩
    ⟨"alice", "Alice", some "good", [], [], "", "2026-10-11"⟩).2.2.2 rfl rfl

/-- Every mapped project in the loop's input gets its post attempted, no
matter how the other posts fare. -/
theorem postLoop_attempts_all (env : Env) :
    ∀ (l : List String) (p : String) (c : ProjectChannel),
    p ∈ l → getProjectChannel env p = some c →
    (c.channelId, env.postOk c.channelId) ∈ postLoop env l := by
  intro l
  induction l with
  | nil => intro p c h; cases h
  | cons q qs ih =>
    intro p c hmem hc
    rcases List.mem_cons.mp hmem with h | h
    · subst h
      simp only [postLoop, hc]
      exact List.mem_cons_self _ _
    · cases hq : getProjectChannel env q with
      | none => simpa [postLoop, hq] using ih p c h hc
      | some c' =>
        simp only [postLoop, hq]
        exact List.mem_cons_of_mem _ (ih p c h hc)

/-- C7: once the record is saved, per-channel post failures are absorbed:
the result is still success, the saved records keep the new record, the
session is still deleted, and every mapped project's post is attempted —
for every failure pattern `env.postOk` whatsoever. -/
theorem distribute_failures_isolated (env : Env) (σ : FlowStore)
    (db : List StandupData) (u b : String) (s : StandupFlowState)
    (hs : fsGet σ u = some s) (hsave : env.saveStandupOk = true) :
    ∃ r, (handleBlockersSubmit env σ db u b).1 = .ok r
      ∧ (handleBlockersSubmit env σ db u b).2.2.1 = db ++ [r]
      ∧ (handleBlockersSubmit env σ db u b).2.1 = fsDelete σ u
      ∧ ∀ p c, p ∈ distinctProjects r → getProjectChannel env p = some c →
          (c.channelId, env.postOk c.channelId)
            ∈ (handleBlockersSubmit env σ db u b).2.2.2 := by
  refine ⟨⟨s.userId, s.userName, s.feeling, s.yesterday, s.today,
      jsOrString b "", env.todayDate⟩, ?_, ?_, ?_, ?_⟩
  · simp only [handleBlockersSubmit, hs, hsave, if_true]
  · simp only [handleBlockersSubmit, hs, hsave, if_true]
  · simp only [handleBlockersSubmit, hs, hsave, if_true]
  · intro p c hp hc
    simp only [handleBlockersSubmit, hs, hsave, if_true]
    exact postLoop_attempts_all env _ p c hp hc

/-- Witness for C7: with the post to channel `C1` failing, finalization
still succeeds and the post to `C2` is still attempted. -/
theorem distribute_failures_isolated_witness :
    ∃ r, (handleBlockersSubmit
        ⟨true, [⟨"Alpha", "C1", "a", true⟩, ⟨"Beta", "C2", "b", true⟩],
         fun ch => if ch = "C1" then false else true, true, true, [], 0, "2026-10-11"⟩
        [("alice", ⟨"alice", "Alice", .blockers, some "good",
            [⟨"Alpha", "N/A", "t1", some "1-2h", some 3, some 3⟩],
            [⟨"Beta", "N/A", "t2", some "1-2h", some 3, some 3⟩], 0⟩)]
        [] "alice" "").1 = .ok r
      ∧ (handleBlockersSubmit
        ⟨true, [⟨"Alpha", "C1", "a", true⟩, ⟨"Beta", "C2", "b", true⟩],
         fun ch => if ch = "C1" then false else true, true, true, [], 0, "2026-10-11"⟩
        [("alice", ⟨"alice", "Alice", .blockers, some "good",
            [⟨"Alpha", "N/A", "t1", some "1-2h", some 3, some 3⟩],
            [⟨"Beta", "N/A", "t2", some "1-2h", some 3, some 3⟩], 0⟩)]
        [] "alice" "").2.2.1 = [] ++ [r]
      ∧ (handleBlockersSubmit
        ⟨true, [⟨"Alpha", "C1", "a", true⟩, ⟨"Beta", "C2", "b", true⟩],
         fun ch => if ch = "C1" then false else true, true, true, [], 0, "2026-10-11"⟩
        [("alice", ⟨"alice", "Alice", .blockers, some "good",
            [⟨"Alpha", "N/A", "t1", some "1-2h", some 3, some 3⟩],
            [⟨"Beta", "N/A", "t2", some "1-2h", some 3, some 3⟩], 0⟩)]
        [] "alice" "").2.1 = fsDelete
          [("alice", ⟨"alice", "Alice", .blockers, some "good",
              [⟨"Alpha", "N/A", "t1", some "1-2h", some 3, some 3⟩],
              [⟨"Beta", "N/A", "t2", some "1-2h", some 3, some 3⟩], 0⟩)] "alice"
      ∧ ∀ p c, p ∈ distinctProjects r →
          getProjectChannel
            ⟨true, [⟨"Alpha", "C1", "a", true⟩, ⟨"Beta", "C2", "b", true⟩],
             fun ch => if ch = "C1" then false else true, true, true, [], 0, "2026-10-11"⟩ p
            = some c →
          (c.channelId,
            (fun ch => if ch = "C1" then false else true) c.channelId)
            ∈ (handleBlockersSubmit
        ⟨true, [⟨"Alpha", "C1", "a", true⟩, ⟨"Beta", "C2", "b", true⟩],
         fun ch => if ch = "C1" then false else true, true, true, [], 0, "2026-10-11"⟩
        [("alice", ⟨"alice", "Alice", .blockers, some "good",
            [⟨"Alpha", "N/A", "t1", some "1-2h", some 3, some 3⟩],
            [⟨"Beta", "N/A", "t2", some "1-2h", some 3, some 3⟩], 0⟩)]
        [] "alice" "").2.2.2 :=
  distribute_failures_isolated
    ⟨true, [⟨"Alpha", "C1", "a", true⟩, ⟨"Beta", "C2", "b", true⟩],
     fun ch => if ch = "C1" then false else true, true, true, [], 0, "2026-10-11"⟩
    [("alice", ⟨"alice", "Alice", .blockers, some "good",
        [⟨"Alpha", "N/A", "t1", some "1-2h", some 3, some 3⟩],
        [⟨"Beta", "N/A", "t2", some "1-2h", some 3, some 3⟩], 0⟩)]
    [] "alice" ""
    ⟨"alice", "Alice", .blockers, some "good",
        [⟨"Alpha", "N/A", "t1", some "1-2h", some 3, some 3⟩],
        [⟨"Beta", "N/A", "t2", some "1-2h", some 3, some 3⟩], 0⟩ rfl rfl

/-! ### Session-table invariants under the operations -/

theorem fsGet_eq_none_of_not_mem_keys (σ : FlowStore) (u : String)
    (h : ¬ u ∈ σ.map Prod.fst) : fsGet σ u = none := by
  induction σ with
  | nil => rfl
  | cons hd tl ih =>
    obtain ⟨k, t⟩ := hd
    simp only [List.map_cons, List.mem_cons, not_or] at h
    have hk : ¬ k = u := fun he => h.1 he.symm
    simp only [fsGet, if_neg hk]
    exact ih h.2

theorem not_mem_keys_of_fsGet_eq_none (σ : FlowStore) (u : String)
    (h : fsGet σ u = none) : ¬ u ∈ σ.map Prod.fst := by
  induction σ with
  | nil => simp
  | cons hd tl ih =>
    obtain ⟨k, t⟩ := hd
    by_cases hk : k = u
    · simp only [fsGet, if_pos hk] at h
      cases h
    · simp only [fsGet, if_neg hk] at h
      simp only [List.map_cons, List.mem_cons, not_or]
      exact ⟨fun he => hk he.symm, ih h⟩

theorem fsGet_filter_none (σ : FlowStore) (pred : String × StandupFlowState → Bool)
    (u : String) (h : fsGet σ u = none) : fsGet (σ.filter pred) u = none := by
  induction σ with
  | nil => rfl
  | cons hd tl ih =>
    obtain ⟨k, t⟩ := hd
    by_cases hk : k = u
    · simp only [fsGet, if_pos hk] at h
      cases h
    · simp only [fsGet, if_neg hk] at h
      rw [List.filter_cons]
      by_cases hp : pred (k, t) = true
      · simp only [hp, if_true, fsGet, if_neg hk]
        exact ih h
      · simp only [Bool.not_eq_true] at hp
        simp only [hp, Bool.false_eq_true, if_false]
        exact ih h

theorem mem_keys_fsSet (σ : FlowStore) (v : String) (s : StandupFlowState) (x : String) :
    x ∈ (fsSet σ v s).map Prod.fst ↔ x = v ∨ x ∈ σ.map Prod.fst := by
  induction σ with
  | nil => simp [fsSet]
  | cons hd tl ih =>
    obtain ⟨k, t⟩ := hd
    by_cases hk : k = v
    · subst hk
      simp [fsSet]
    · simp only [fsSet, if_neg hk, List.map_cons, List.mem_cons, ih]
      tauto

theorem mem_keys_fsDelete (σ : FlowStore) (v : String) (x : String)
    (h : x ∈ (fsDelete σ v).map Prod.fst) : x ∈ σ.map Prod.fst := by
  induction σ with
  | nil => simpa [fsDelete] using h
  | cons hd tl ih =>
    obtain ⟨k, t⟩ := hd
    by_cases hk : k = v
    · simp only [fsDelete, if_pos hk] at h
      exact List.mem_cons_of_mem _ (ih h)
    · simp only [fsDelete, if_neg hk, List.map_cons, List.mem_cons] at h
      rcases h with h | h
      · exact List.mem_cons.mpr (Or.inl h)
      · exact List.mem_cons_of_mem _ (ih h)

theorem keysNodup_fsSet (σ : FlowStore) (v : String) (s : StandupFlowState)
    (hnd : keysNodup σ) : keysNodup (fsSet σ v s) := by
  induction σ with
  | nil => simp [keysNodup, fsSet]
  | cons hd tl ih =>
    obtain ⟨k, t⟩ := hd
    rw [keysNodup, List.map_cons, List.nodup_cons] at hnd
    by_cases hk : k = v
    · subst hk
      rw [keysNodup, fsSet, if_pos rfl, List.map_cons, List.nodup_cons]
      exact hnd
    · rw [keysNodup, fsSet, if_neg hk, List.map_cons, List.nodup_cons]
      refine ⟨?_, ih hnd.2⟩
      intro hmem
      rcases (mem_keys_fsSet tl v s k).mp hmem with h | h
      · exact hk h
      · exact hnd.1 h

theorem keysNodup_fsDelete (σ : FlowStore) (v : String)
    (hnd : keysNodup σ) : keysNodup (fsDelete σ v) := by
  induction σ with
  | nil => simpa [keysNodup, fsDelete] using hnd
  | cons hd tl ih =>
    obtain ⟨k, t⟩ := hd
    rw [keysNodup, List.map_cons, List.nodup_cons] at hnd
    by_cases hk : k = v
    · rw [fsDelete, if_pos hk]
      exact ih hnd.2
    · rw [keysNodup, fsDelete, if_neg hk, List.map_cons, List.nodup_cons]
      exact ⟨fun h => hnd.1 (mem_keys_fsDelete tl v k h), ih hnd.2⟩

theorem mem_keys_filter (σ : FlowStore) (pred : String × StandupFlowState → Bool)
    (x : String) (h : x ∈ (σ.filter pred).map Prod.fst) : x ∈ σ.map Prod.fst := by
  obtain ⟨p, hp, hxp⟩ := List.mem_map.mp h
  exact List.mem_map.mpr ⟨p, (List.mem_filter.mp hp).1, hxp⟩

theorem keysNodup_filter (σ : FlowStore) (pred : String × StandupFlowState → Bool)
    (hnd : keysNodup σ) : keysNodup (σ.filter pred) := by
  induction σ with
  | nil => simpa [keysNodup] using hnd
  | cons hd tl ih =>
    obtain ⟨k, t⟩ := hd
    rw [keysNodup, List.map_cons, List.nodup_cons] at hnd
    rw [List.filter_cons]
    by_cases hp : pred (k, t) = true
    · simp only [hp, if_true]
      rw [keysNodup, List.map_cons, List.nodup_cons]
      exact ⟨fun h => hnd.1 (mem_keys_filter tl pred k h), ih hnd.2⟩
    · simp only [Bool.not_eq_true] at hp
      simp only [hp, Bool.false_eq_true, if_false]
      exact ih hnd.2

/-- The sweep on a table with distinct keys: a present session survives
exactly when its age does not exceed the threshold. -/
theorem fsGet_cleanupOldStates (now m : Int) (σ : FlowStore) (u : String)
    (s : StandupFlowState) (hnd : keysNodup σ) (hs : fsGet σ u = some s) :
    fsGet (cleanupOldStates now σ m) u
      = if now - s.startTime > m * 60 * 1000 then none else some s := by
  induction σ with
  | nil => cases hs
  | cons hd tl ih =>
    obtain ⟨k, t⟩ := hd
    rw [keysNodup, List.map_cons, List.nodup_cons] at hnd
    by_cases hk : k = u
    · simp only [fsGet, if_pos hk] at hs
      injection hs with hs
      subst hs
      subst hk
      have htl : fsGet tl k = none :=
        fsGet_eq_none_of_not_mem_keys tl k hnd.1
      rw [cleanupOldStates, List.filter_cons]
      by_cases hexp : now - t.startTime > m * 60 * 1000
      · rw [if_pos hexp]
        have hd : (decide ¬ now - t.startTime > m * 60 * 1000) = false :=
          decide_eq_false (not_not_intro hexp)
        simp only [hd, Bool.false_eq_true, if_false]
        exact fsGet_filter_none tl _ k htl
      · rw [if_neg hexp]
        have hd : (decide ¬ now - t.startTime > m * 60 * 1000) = true :=
          decide_eq_true hexp
        simp only [hd, if_true, fsGet, if_pos rfl]
    · simp only [fsGet, if_neg hk] at hs
      rw [cleanupOldStates, List.filter_cons]
      by_cases hp : (decide ¬ now - t.startTime > m * 60 * 1000) = true
      · simp only [hp, if_true, fsGet, if_neg hk]
        exact ih hnd.2 hs
      · simp only [Bool.not_eq_true] at hp
        simp only [hp, Bool.false_eq_true, if_false]
        exact ih hnd.2 hs

/-- `handleFeelingSubmit` on an existing session stores the feeling and
moves to `yesterday` (whatever the gateway outcome). -/
theorem fsGet_handleFeelingSubmit (env : Env) (σ : FlowStore) (u f : String)
    (s : StandupFlowState) (hs : fsGet σ u = some s) :
    fsGet (handleFeelingSubmit env σ u f).2 u
      = some { s with feeling := some f, step := .yesterday } := by
  simp only [handleFeelingSubmit, hs]
  by_cases hv : env.viewsUpdateOk = true
  · simp only [hv, if_true]
    exact fsGet_fsSet_self σ u _
  · simp only [Bool.not_eq_true] at hv
    simp only [hv, Bool.false_eq_true, if_false]
    exact fsGet_fsSet_self σ u _

/-- The step a non-`addAnother` task submission advances to. -/
theorem fsGet_handleTaskSubmit_advance (env : Env) (σ : FlowStore) (u : String)
    (tt : TaskType) (d : TaskEntryFormData) (s : StandupFlowState)
    (hs : fsGet σ u = some s) :
    fsGet (handleTaskSubmit env σ u tt d false).2 u
      = some { pushTask s tt (buildTask d) with
               step := match tt with | .yesterday => .today | .today => .blockers } := by
  cases tt <;>
  · simp only [handleTaskSubmit, hs, pushTask, Bool.false_eq_true, if_false]
    by_cases hv : env.viewsUpdateOk = true
    · simp only [hv, if_true]
      exact fsGet_fsSet_self _ u _
    · simp only [Bool.not_eq_true] at hv
      simp only [hv, Bool.false_eq_true, if_false]
      exact fsGet_fsSet_self _ u _

/-- `handleBlockersSubmit` leaves the table unchanged on a store failure
and deletes exactly the finalizing user's entry on success. -/
theorem handleBlockersSubmit_store (env : Env) (σ : FlowStore) (db : List StandupData)
    (v b : String) (s : StandupFlowState) (hs : fsGet σ v = some s) :
    (handleBlockersSubmit env σ db v b).2.1
      = if env.saveStandupOk then fsDelete σ v else σ := by
  simp only [handleBlockersSubmit, hs]
  by_cases hsave : env.saveStandupOk = true
  · simp only [hsave, if_true]
  · simp only [Bool.not_eq_true] at hsave
    simp only [hsave, Bool.false_eq_true, if_false]

/-! ### One user's operations never touch another user's session -/

theorem fsGet_handleFeelingSubmit_other (env : Env) (σ : FlowStore) (v f u : String)
    (hne : ¬ v = u) : fsGet (handleFeelingSubmit env σ v f).2 u = fsGet σ u := by
  cases hv : fsGet σ v with
  | none => simp only [handleFeelingSubmit, hv]
  | some sv =>
    simp only [handleFeelingSubmit, hv]
    have hrw := fsGet_fsSet_other σ v u
      { sv with feeling := some f, step := .yesterday } (fun h => hne h.symm)
    by_cases hvu : env.viewsUpdateOk = true
    · simp only [hvu, if_true]
      exact hrw
    · simp only [Bool.not_eq_true] at hvu
      simp only [hvu, Bool.false_eq_true, if_false]
      exact hrw

theorem fsGet_handleTaskSubmit_other (env : Env) (σ : FlowStore) (v : String)
    (tt : TaskType) (d : TaskEntryFormData) (a : Bool) (u : String)
    (hne : ¬ v = u) : fsGet (handleTaskSubmit env σ v tt d a).2 u = fsGet σ u := by
  cases hv : fsGet σ v with
  | none => cases tt <;> simp only [handleTaskSubmit, hv]
  | some sv =>
    have hne' : u ≠ v := fun h => hne h.symm
    cases a <;> cases tt <;>
    · simp only [handleTaskSubmit, hv, Bool.false_eq_true, if_false, if_true]
      by_cases hvu : env.viewsUpdateOk = true
      · simp only [hvu, if_true]
        first
        | exact fsGet_fsSet_other σ v u _ hne'
        | exact (fsGet_fsSet_other _ v u _ hne').trans (fsGet_fsSet_other σ v u _ hne')
      · simp only [Bool.not_eq_true] at hvu
        simp only [hvu, Bool.false_eq_true, if_false]
        first
        | exact fsGet_fsSet_other σ v u _ hne'
        | exact (fsGet_fsSet_other _ v u _ hne').trans (fsGet_fsSet_other σ v u _ hne')

theorem fsGet_handleBlockersSubmit_other (env : Env) (σ : FlowStore)
    (db : List StandupData) (v b u : String) (hne : ¬ v = u) :
    fsGet (handleBlockersSubmit env σ db v b).2.1 u = fsGet σ u := by
  cases hv : fsGet σ v with
  | none => simp only [handleBlockersSubmit, hv]
  | some sv =>
    rw [handleBlockersSubmit_store env σ db v b sv hv]
    by_cases hsave : env.saveStandupOk = true
    · rw [if_pos hsave]
      exact fsGet_fsDelete_other σ v u (fun h => hne h.symm)
    · rw [if_neg hsave]

/-- An absent session stays absent under every operation (no operation
but `startStandupFlow` creates an entry). -/
theorem applyOp_preserve_none (env : Env) (σ : FlowStore) (op : Op) (u : String)
    (h : fsGet σ u = none) : fsGet (applyOp env σ op) u = none := by
  cases op with
  | submitFeeling v f =>
    by_cases hvu : v = u
    · subst hvu
      simp only [applyOp, handleFeelingSubmit, h]
    · rw [show applyOp env σ (.submitFeeling v f)
          = (handleFeelingSubmit env σ v f).2 from rfl,
        fsGet_handleFeelingSubmit_other env σ v f u hvu]
      exact h
  | submitTask v tt d a =>
    by_cases hvu : v = u
    · subst hvu
      cases tt <;> simp only [applyOp, handleTaskSubmit, h]
    · rw [show applyOp env σ (.submitTask v tt d a)
          = (handleTaskSubmit env σ v tt d a).2 from rfl,
        fsGet_handleTaskSubmit_other env σ v tt d a u hvu]
      exact h
  | submitBlockers v b =>
    cases hv : fsGet σ v with
    | none => simp only [applyOp, handleBlockersSubmit, hv]; exact h
    | some sv =>
      have hvu : ¬ v = u := fun he => by rw [he, h] at hv; cases hv
      rw [show applyOp env σ (.submitBlockers v b)
            = (handleBlockersSubmit env σ [] v b).2.1 from rfl,
        fsGet_handleBlockersSubmit_other env σ [] v b u hvu]
      exact h
  | cancel v =>
    by_cases hvu : v = u
    · subst hvu
      exact fsGet_fsDelete_self σ v
    · rw [show applyOp env σ (.cancel v) = fsDelete σ v from rfl,
        fsGet_fsDelete_other σ v u (fun he => hvu he.symm)]
      exact h
  | sweep now m =>
    exact fsGet_filter_none σ _ u h

/-- And stays absent along a whole trace. -/
theorem applyOps_preserve_none (env : Env) (ops : List Op) :
    ∀ (σ : FlowStore) (u : String), fsGet σ u = none →
    fsGet (applyOps env σ ops) u = none := by
  induction ops with
  | nil => intro σ u h; exact h
  | cons op ops ih =>
    intro σ u h
    exact ih (applyOp env σ op) u (applyOp_preserve_none env σ op u h)

/-- Every operation preserves distinctness of the table's keys. -/
theorem keysNodup_applyOp (env : Env) (σ : FlowStore) (op : Op)
    (hnd : keysNodup σ) : keysNodup (applyOp env σ op) := by
  cases op with
  | submitFeeling v f =>
    cases hv : fsGet σ v with
    | none => simpa only [applyOp, handleFeelingSubmit, hv] using hnd
    | some sv =>
      simp only [applyOp, handleFeelingSubmit, hv]
      by_cases hvu : env.viewsUpdateOk = true
      · simp only [hvu, if_true]
        exact keysNodup_fsSet σ v _ hnd
      · simp only [Bool.not_eq_true] at hvu
        simp only [hvu, Bool.false_eq_true, if_false]
        exact keysNodup_fsSet σ v _ hnd
  | submitTask v tt d a =>
    cases hv : fsGet σ v with
    | none => cases tt <;> simpa only [applyOp, handleTaskSubmit, hv] using hnd
    | some sv =>
      cases a <;> cases tt <;>
      · simp only [applyOp, handleTaskSubmit, hv, Bool.false_eq_true, if_false, if_true]
        by_cases hvu : env.viewsUpdateOk = true
        · simp only [hvu, if_true]
          first
          | exact keysNodup_fsSet σ v _ hnd
          | exact keysNodup_fsSet _ v _ (keysNodup_fsSet σ v _ hnd)
        · simp only [Bool.not_eq_true] at hvu
          simp only [hvu, Bool.false_eq_true, if_false]
          first
          | exact keysNodup_fsSet σ v _ hnd
          | exact keysNodup_fsSet _ v _ (keysNodup_fsSet σ v _ hnd)
  | submitBlockers v b =>
    cases hv : fsGet σ v with
    | none => simpa only [applyOp, handleBlockersSubmit, hv] using hnd
    | some sv =>
      rw [show applyOp env σ (.submitBlockers v b)
            = (handleBlockersSubmit env σ [] v b).2.1 from rfl,
        handleBlockersSubmit_store env σ [] v b sv hv]
      by_cases hsave : env.saveStandupOk = true
      · rw [if_pos hsave]
        exact keysNodup_fsDelete σ v hnd
      · rw [if_neg hsave]
        exact hnd
  | cancel v => exact keysNodup_fsDelete σ v hnd
  | sweep now m => exact keysNodup_filter σ _ hnd

/-- One step-respecting operation never decreases the step of a session
that survives it. -/
theorem applyOp_step_mono (env : Env) (σ : FlowStore) (op : Op) (u : String)
    (s s' : StandupFlowState) (hnd : keysNodup σ) (hresp : respects σ op)
    (hs : fsGet σ u = some s)
    (hs' : fsGet (applyOp env σ op) u = some s') :
    stepIdx s.step ≤ stepIdx s'.step := by
  cases op with
  | submitFeeling v f =>
    by_cases hvu : v = u
    · subst hvu
      rw [hresp s hs]
      exact Nat.zero_le _
    · rw [show applyOp env σ (.submitFeeling v f)
            = (handleFeelingSubmit env σ v f).2 from rfl,
        fsGet_handleFeelingSubmit_other env σ v f u hvu, hs] at hs'
      injection hs' with h
      rw [h]
  | submitTask v tt d a =>
    by_cases hvu : v = u
    · subst hvu
      have hstep := hresp s hs
      cases a
      · rw [show applyOp env σ (.submitTask v tt d false)
              = (handleTaskSubmit env σ v tt d false).2 from rfl,
          fsGet_handleTaskSubmit_advance env σ v tt d s hs] at hs'
        injection hs' with h
        rw [← h, hstep]
        cases tt <;> simp [stepOfTaskType, stepIdx, pushTask]
      · rw [show applyOp env σ (.submitTask v tt d true)
              = (handleTaskSubmit env σ v tt d true).2 from rfl,
          fsGet_handleTaskSubmit_addAnother env σ v tt d s hs] at hs'
        injection hs' with h
        rw [← h]
        cases tt <;> exact le_refl _
    · rw [show applyOp env σ (.submitTask v tt d a)
            = (handleTaskSubmit env σ v tt d a).2 from rfl,
        fsGet_handleTaskSubmit_other env σ v tt d a u hvu, hs] at hs'
      injection hs' with h
      rw [h]
  | submitBlockers v b =>
    by_cases hvu : v = u
    · subst hvu
      rw [show applyOp env σ (.submitBlockers v b)
            = (handleBlockersSubmit env σ [] v b).2.1 from rfl,
        handleBlockersSubmit_store env σ [] v b s hs] at hs'
      by_cases hsave : env.saveStandupOk = true
      · rw [if_pos hsave, fsGet_fsDelete_self] at hs'
        cases hs'
      · rw [if_neg hsave, hs] at hs'
        injection hs' with h
        rw [h]
    · rw [show applyOp env σ (.submitBlockers v b)
            = (handleBlockersSubmit env σ [] v b).2.1 from rfl,
        fsGet_handleBlockersSubmit_other env σ [] v b u hvu, hs] at hs'
      injection hs' with h
      rw [h]
  | cancel v =>
    by_cases hvu : v = u
    · subst hvu
      rw [show applyOp env σ (.cancel v) = fsDelete σ v from rfl,
        fsGet_fsDelete_self] at hs'
      cases hs'
    · rw [show applyOp env σ (.cancel v) = fsDelete σ v from rfl,
        fsGet_fsDelete_other σ v u (fun he => hvu he.symm), hs] at hs'
      injection hs' with h
      rw [h]
  | sweep now m =>
    rw [show applyOp env σ (.sweep now m) = cleanupOldStates now σ m from rfl,
      fsGet_cleanupOldStates now m σ u s hnd hs] at hs'
    by_cases hexp : now - s.startTime > m * 60 * 1000
    · rw [if_pos hexp] at hs'
      cases hs'
    · rw [if_neg hexp] at hs'
      injection hs' with h
      rw [h]

/-- A live session is removed by an operation exactly when that operation
is the user's own finalization with a successful store write, the user's
own cancellation, or a sweep finding the session over age. -/
theorem applyOp_removes_iff (env : Env) (σ : FlowStore) (op : Op) (u : String)
    (s : StandupFlowState) (hnd : keysNodup σ) (hs : fsGet σ u = some s) :
    (fsGet (applyOp env σ op) u = none ↔
      ((∃ b, op = .submitBlockers u b) ∧ env.saveStandupOk = true)
      ∨ op = .cancel u
      ∨ (∃ now m, op = .sweep now m ∧ now - s.startTime > m * 60 * 1000)) := by
  cases op with
  | submitFeeling v f =>
    constructor
    · intro h
      exfalso
      by_cases hvu : v = u
      · subst hvu
        rw [show applyOp env σ (.submitFeeling v f)
              = (handleFeelingSubmit env σ v f).2 from rfl,
          fsGet_handleFeelingSubmit env σ v f s hs] at h
        cases h
      · rw [show applyOp env σ (.submitFeeling v f)
              = (handleFeelingSubmit env σ v f).2 from rfl,
          fsGet_handleFeelingSubmit_other env σ v f u hvu, hs] at h
        cases h
    · rintro (⟨⟨b, hb⟩, _⟩ | hc | ⟨now, m, hsw, _⟩)
      · exact Op.noConfusion hb
      · exact Op.noConfusion hc
      · exact Op.noConfusion hsw
  | submitTask v tt d a =>
    constructor
    · intro h
      exfalso
      by_cases hvu : v = u
      · subst hvu
        cases a
        · rw [show applyOp env σ (.submitTask v tt d false)
                = (handleTaskSubmit env σ v tt d false).2 from rfl,
            fsGet_handleTaskSubmit_advance env σ v tt d s hs] at h
          cases h
        · rw [show applyOp env σ (.submitTask v tt d true)
                = (handleTaskSubmit env σ v tt d true).2 from rfl,
            fsGet_handleTaskSubmit_addAnother env σ v tt d s hs] at h
          cases h
      · rw [show applyOp env σ (.submitTask v tt d a)
              = (handleTaskSubmit env σ v tt d a).2 from rfl,
          fsGet_handleTaskSubmit_other env σ v tt d a u hvu, hs] at h
        cases h
    · rintro (⟨⟨b, hb⟩, _⟩ | hc | ⟨now, m, hsw, _⟩)
      · exact Op.noConfusion hb
      · exact Op.noConfusion hc
      · exact Op.noConfusion hsw
  | submitBlockers v b =>
    by_cases hvu : v = u
    · subst hvu
      rw [show applyOp env σ (.submitBlockers v b)
            = (handleBlockersSubmit env σ [] v b).2.1 from rfl,
        handleBlockersSubmit_store env σ [] v b s hs]
      by_cases hsave : env.saveStandupOk = true
      · rw [if_pos hsave, fsGet_fsDelete_self]
        exact ⟨fun _ => Or.inl ⟨⟨b, rfl⟩, hsave⟩, fun _ => rfl⟩
      · rw [if_neg hsave, hs]
        constructor
        · intro h; cases h
        · rintro (⟨_, hsv⟩ | hc | ⟨now, m, hsw, _⟩)
          · exact absurd hsv hsave
          · exact Op.noConfusion hc
          · exact Op.noConfusion hsw
    · rw [show applyOp env σ (.submitBlockers v b)
            = (handleBlockersSubmit env σ [] v b).2.1 from rfl,
        fsGet_handleBlockersSubmit_other env σ [] v b u hvu, hs]
      constructor
      · intro h; cases h
      · rintro (⟨⟨b', hb⟩, _⟩ | hc | ⟨now, m, hsw, _⟩)
        · injection hb with h1 h2
          exact absurd h1 hvu
        · exact Op.noConfusion hc
        · exact Op.noConfusion hsw
  | cancel v =>
    by_cases hvu : v = u
    · subst hvu
      rw [show applyOp env σ (.cancel v) = fsDelete σ v from rfl,
        fsGet_fsDelete_self]
      exact ⟨fun _ => Or.inr (Or.inl rfl), fun _ => rfl⟩
    · rw [show applyOp env σ (.cancel v) = fsDelete σ v from rfl,
        fsGet_fsDelete_other σ v u (fun he => hvu he.symm), hs]
      constructor
      · intro h; cases h
      · rintro (⟨⟨b, hb⟩, _⟩ | hc | ⟨now, m, hsw, _⟩)
        · exact Op.noConfusion hb
        · injection hc with h1
          exact absurd h1 hvu
        · exact Op.noConfusion hsw
  | sweep now m =>
    rw [show applyOp env σ (.sweep now m) = cleanupOldStates now σ m from rfl,
      fsGet_cleanupOldStates now m σ u s hnd hs]
    by_cases hexp : now - s.startTime > m * 60 * 1000
    · rw [if_pos hexp]
      exact ⟨fun _ => Or.inr (Or.inr ⟨now, m, rfl, hexp⟩), fun _ => rfl⟩
    · rw [if_neg hexp]
      constructor
      · intro h; cases h
      · rintro (⟨⟨b, hb⟩, _⟩ | hc | ⟨now', m', hsw, hexp'⟩)
        · exact Op.noConfusion hb
        · exact Op.noConfusion hc
        · injection hsw with h1 h2
          subst h1
          subst h2
          exact absurd hexp' hexp

/-- Along any step-respecting trace, the step index never decreases. -/
theorem applyOps_step_mono (env : Env) :
    ∀ (ops : List Op) (σ : FlowStore) (u : String) (s : StandupFlowState),
    keysNodup σ → fsGet σ u = some s → RespectfulFrom env σ ops →
    ∀ s', fsGet (applyOps env σ ops) u = some s' →
    stepIdx s.step ≤ stepIdx s'.step := by
  intro ops
  induction ops with
  | nil =>
    intro σ u s _ hs _ s' hs'
    rw [show applyOps env σ [] = σ from rfl, hs] at hs'
    injection hs' with h
    rw [h]
  | cons op ops ih =>
    intro σ u s hnd hs hresp s' hs'
    obtain ⟨h1, h2⟩ := hresp
    rw [show applyOps env σ (op :: ops)
          = applyOps env (applyOp env σ op) ops from rfl] at hs'
    cases hmid : fsGet (applyOp env σ op) u with
    | none =>
      rw [applyOps_preserve_none env ops (applyOp env σ op) u hmid] at hs'
      cases hs'
    | some s1 =>
      exact le_trans
        (applyOp_step_mono env σ op u s s1 hnd h1 hs hmid)
        (ih (applyOp env σ op) u s1 (keysNodup_applyOp env σ op hnd) hmid h2 s' hs')

/-- C8 (amended): provided each submission answers the session's current
step (the one-modal-at-a-time discipline), the step only advances forward
along any operation sequence; and a live session is removed from the
table exactly by its own successful finalization, its own cancellation,
or a sweep finding it over age.  (An out-of-order submission — e.g. a
stale feeling submit — can move the step backward; see the
counterexample.) -/
theorem step_forward_and_removal (env : Env) (σ : FlowStore) (u : String)
    (s : StandupFlowState) (ops : List Op) (op : Op)
    (hnd : keysNodup σ) (hs : fsGet σ u = some s) :
    (RespectfulFrom env σ ops →
      ∀ s', fsGet (applyOps env σ ops) u = some s' →
        stepIdx s.step ≤ stepIdx s'.step)
    ∧ (fsGet (applyOp env σ op) u = none ↔
        ((∃ b, op = .submitBlockers u b) ∧ env.saveStandupOk = true)
      ∨ op = .cancel u
      ∨ (∃ now m, op = .sweep now m ∧ now - s.startTime > m * 60 * 1000)) :=
  ⟨fun hresp s' hs' => applyOps_step_mono env ops σ u s hnd hs hresp s' hs',
   applyOp_removes_iff env σ op u s hnd hs⟩

/-- C8 counterexample: the unguarded sequence feeling-submit,
task-submit (advance), feeling-submit moves the step `today → yesterday`
— the code never checks the current step, so a stale or duplicate
feeling callback drives the session backward. -/
theorem step_backward_counterexample :
    ((fsGet (applyOps ⟨true, [], fun _ => true, true, true, [], 0, "d"⟩
        [("alice", ⟨"alice", "Alice", .feeling, none, [], [], 0⟩)]
        [.submitFeeling "alice" "good",
         .submitTask "alice" .yesterday ⟨"Alpha", "", "t", some "1-2h", "3", "3"⟩ false])
        "alice").map StandupFlowState.step = some .today)
    ∧ ((fsGet (applyOps ⟨true, [], fun _ => true, true, true, [], 0, "d"⟩
        [("alice", ⟨"alice", "Alice", .feeling, none, [], [], 0⟩)]
        [.submitFeeling "alice" "good",
         .submitTask "alice" .yesterday ⟨"Alpha", "", "t", some "1-2h", "3", "3"⟩ false,
         .submitFeeling "alice" "good"])
        "alice").map StandupFlowState.step = some .yesterday)
    ∧ stepIdx .yesterday < stepIdx .today := by
  decide

/-- Witness for C8's amended claim: a respectful one-step trace advances
`feeling → yesterday`, and cancellation removes the concrete session. -/
theorem step_forward_and_removal_witness :
    stepIdx Step.feeling ≤ stepIdx Step.yesterday
    ∧ fsGet (applyOp ⟨true, [], fun _ => true, true, true, [], 0, "d"⟩
        [("alice", ⟨"alice", "Alice", .feeling, none, [], [], 0⟩)]
        (.cancel "alice")) "alice" = none :=
  ⟨(step_forward_and_removal ⟨true, [], fun _ => true, true, true, [], 0, "d"⟩
      [("alice", ⟨"alice", "Alice", .feeling, none, [], [], 0⟩)] "alice"
      ⟨"alice", "Alice", .feeling, none, [], [], 0⟩
      [.submitFeeling "alice" "good"] (.cancel "alice")
      (by rw [keysNodup]; decide) rfl).1
    ⟨fun s hs => by
        have h : (⟨"alice", "Alice", .feeling, none, [], [], 0⟩ : StandupFlowState) = s :=
          Option.some.inj hs
        rw [← h],
      trivial⟩
    ⟨"alice", "Alice", .yesterday, some "good", [], [], 0⟩ rfl,
   (step_forward_and_removal ⟨true, [], fun _ => true, true, true, [], 0, "d"⟩
      [("alice", ⟨"alice", "Alice", .feeling, none, [], [], 0⟩)] "alice"
      ⟨"alice", "Alice", .feeling, none, [], [], 0⟩
      [.submitFeeling "alice" "good"] (.cancel "alice")
      (by rw [keysNodup]; decide) rfl).2.mpr (Or.inr (Or.inl rfl))⟩

/-- C2 counterexample: a session touched by a task submission a moment
before the sweep (the first conjunct shows it live, holding the freshly
appended task) is removed all the same, because the sweep ages sessions
from `startTime`, which no operation ever updates. -/
theorem sweep_ignores_touch_counterexample :
    (fsGet ((handleTaskSubmit ⟨true, [], fun _ => true, true, true, [], 3600001, "d"⟩
        [("alice", ⟨"alice", "Alice", .yesterday, some "good", [], [], 0⟩)]
        "alice" .yesterday ⟨"Alpha", "", "t", some "1-2h", "3", "3"⟩ true).2) "alice"
      = some ⟨"alice", "Alice", .yesterday, some "good",
          [⟨"Alpha", "N/A", "t", some "1-2h", some 3, some 3⟩], [], 0⟩)
    ∧ fsGet (cleanupOldStates 3600001
        ((handleTaskSubmit ⟨true, [], fun _ => true, true, true, [], 3600001, "d"⟩
          [("alice", ⟨"alice", "Alice", .yesterday, some "good", [], [], 0⟩)]
          "alice" .yesterday ⟨"Alpha", "", "t", some "1-2h", "3", "3"⟩ true).2) 60) "alice"
      = none := by
  decide

/-- C2 (amended): the sweep removes a live session exactly when
`now - startTime` exceeds the threshold, and the submit operations keep
the session present with `startTime` untouched — they do not reset its
effective age (and remove nothing themselves). -/
theorem sweep_removes_iff_aged (env : Env) (now m : Int) (σ : FlowStore)
    (u : String) (s : StandupFlowState) (hnd : keysNodup σ)
    (hs : fsGet σ u = some s) :
    (fsGet (cleanupOldStates now σ m) u
      = if now - s.startTime > m * 60 * 1000 then none else some s)
    ∧ (∀ tt d a, ∃ s', fsGet (handleTaskSubmit env σ u tt d a).2 u = some s'
        ∧ s'.startTime = s.startTime)
    ∧ (∀ f, ∃ s', fsGet (handleFeelingSubmit env σ u f).2 u = some s'
        ∧ s'.startTime = s.startTime)
    ∧ (∀ op, fsGet (applyOp env σ op) u = none →
        ((∃ b, op = Op.submitBlockers u b) ∧ env.saveStandupOk = true)
        ∨ op = Op.cancel u
        ∨ (∃ now' m', op = Op.sweep now' m'
            ∧ now' - s.startTime > m' * 60 * 1000)) := by
  refine ⟨fsGet_cleanupOldStates now m σ u s hnd hs, ?_, ?_, ?_⟩
  · intro tt d a
    cases a
    · refine ⟨_, fsGet_handleTaskSubmit_advance env σ u tt d s hs, ?_⟩
      cases tt <;> rfl
    · refine ⟨_, fsGet_handleTaskSubmit_addAnother env σ u tt d s hs, ?_⟩
      cases tt <;> rfl
  · intro f
    exact ⟨_, fsGet_handleFeelingSubmit env σ u f s hs, rfl⟩
  · intro op h
    exact (applyOp_removes_iff env σ op u s hnd hs).mp h

/-- Witness for C2's amended claim: a young session survives the sweep,
and a concrete task submission keeps `startTime = 0`. -/
theorem sweep_removes_iff_aged_witness :
    fsGet (cleanupOldStates 10
        [("alice", ⟨"alice", "Alice", .yesterday, some "good", [], [], 0⟩)] 60) "alice"
      = some ⟨"alice", "Alice", .yesterday, some "good", [], [], 0⟩
    ∧ ∃ s', fsGet (handleTaskSubmit ⟨true, [], fun _ => true, true, true, [], 10, "d"⟩
        [("alice", ⟨"alice", "Alice", .yesterday, some "good", [], [], 0⟩)]
        "alice" .yesterday ⟨"Alpha", "", "t", some "1-2h", "3", "3"⟩ true).2 "alice"
          = some s' ∧ s'.startTime = 0 :=
  ⟨((sweep_removes_iff_aged ⟨true, [], fun _ => true, true, true, [], 10, "d"⟩ 10 60
      [("alice", ⟨"alice", "Alice", .yesterday, some "good", [], [], 0⟩)] "alice"
      ⟨"alice", "Alice", .yesterday, some "good", [], [], 0⟩ (by rw [keysNodup]; decide) rfl).1).trans
      (by decide),
   (sweep_removes_iff_aged ⟨true, [], fun _ => true, true, true, [], 10, "d"⟩ 10 60
      [("alice", ⟨"alice", "Alice", .yesterday, some "good", [], [], 0⟩)] "alice"
      ⟨"alice", "Alice", .yesterday, some "good", [], [], 0⟩ (by rw [keysNodup]; decide) rfl).2.1
      .yesterday ⟨"Alpha", "", "t", some "1-2h", "3", "3"⟩ true⟩

end CheckinBot
